import Mathlib

/-!
Shallow embedding of the TrelloDailyReport core pipeline (`src/main.py`):
the comment parser (`_PLUS_FOR_TRELLO_COMMENT_FORMAT` + `parse_actions`),
the action aggregator (`parse_actions`), the report builder (`get_report`,
`get_project_report`, `get_category_reports`) and the structured renderer
(`get_dict`).

Modelling conventions:
  - Python floats are modelled as exact rationals (ℚ); `round(x, 2)` is
    modelled as round-half-to-even at two decimal places (`round2`).
  - Timestamps are modelled as already-parsed absolute instants (ℤ);
    a raw activity record carries `Option ℤ`: `none` models a date string
    that `datetime.strptime` rejects (Python raises, our model returns
    `Except.error .inputFormatError`).  The nested card-identifier field is
    `Option String`: `none` models an absent `['data']['card']['id']` key
    (Python raises `KeyError`, modelled as `.error .missingFieldError`).
  - Python `dict` (the card universe built by `parse_cards`, keyed by card
    id) is modelled as a `List Card` with first-match lookup; `parse_cards`
    guarantees distinct ids, under which the two coincide.
  - Python `set` iteration order is unspecified; it is modelled
    deterministically as first-occurrence order (`dedupById`, `List.dedup`).
    No theorem below about per-element content depends on this choice.
-/

namespace Trello

/-- `Label` from `src/main.py`: equality and hashing are by `id` only. -/
structure Label where
  id : String
  text : String
deriving DecidableEq

/-- Python `label == other` (`Label.__eq__`): compares ids only. -/
def labelEqPy (a b : Label) : Bool := a.id == b.id

/-- `Card` from `src/main.py`. -/
structure Card where
  id : String
  title : String
  labels : List Label
deriving DecidableEq

/-- `Action` from `src/main.py`: one parsed time-entry. -/
structure Action where
  card_id : String
  comment : String
  spent : ℚ
deriving DecidableEq

/-- `Spent` from `src/main.py`: the per-card aggregate (CardSpend). -/
structure Spent where
  card_id : String
  comments : List String
  spent : ℚ
deriving DecidableEq

/-- `TaskReport` from `src/main.py`. -/
structure TaskReport where
  title : String
  spent : ℚ
  sub_tasks : List String
deriving DecidableEq

/-- `CategoryReport` from `src/main.py`. -/
structure CategoryReport where
  title : String
  spent : ℚ
  tasks : List TaskReport
deriving DecidableEq

/-- `ProjectReport` from `src/main.py`. -/
structure ProjectReport where
  title : String
  spent : ℚ
  categories : List CategoryReport
deriving DecidableEq

/-- `DailyReport` from `src/main.py`. -/
structure DailyReport where
  title : String
  spent : ℚ
  projects : List ProjectReport
deriving DecidableEq

/-!
### Comment parser

Embeds the regex `^plus\! (\d+(\.\d+)?)/(\d+(\.\d+)?) ?(.*)$` applied with
`re.match` (anchored at the start; `$` anchors at the end of the string or
just before one final newline; `.` does not match newline).  The regex is
deterministic here: each `\d+(\.\d+)?` group can be taken greedily with no
backtracking, because shrinking a digit run always leaves a digit as the
next character, which none of the follow-up patterns (`/`, ` ?(.*)$`)
reject only on digits.
-/

/-- Greedy parse of one `\d+(\.\d+)?` group: returns the matched prefix and
the remaining characters, or `none` when no digit starts the input. -/
def parseDecimal (l : List Char) : Option (List Char × List Char) :=
  let d := l.takeWhile Char.isDigit
  let r := l.dropWhile Char.isDigit
  if d = [] then none
  else if r.head? = some '.' then
    let d2 := r.tail.takeWhile Char.isDigit
    if d2 = [] then some (d, r)
    else some (d ++ '.' :: d2, r.tail.dropWhile Char.isDigit)
  else some (d, r)

/-- A character list that is exactly one `\d+(\.\d+)?` group. -/
def isDecStr (l : List Char) : Prop := parseDecimal l = some (l, [])

instance (l : List Char) : Decidable (isDecStr l) := by
  unfold isDecStr; infer_instance

/-- Numeric value of a digit string, as `float(...)` produces (exactly,
since the model uses ℚ). -/
def digitsVal (l : List Char) : ℕ :=
  l.foldl (fun a c => 10 * a + (c.toNat - 48)) 0

/-- Value of a `\d+(\.\d+)?` group, mirroring Python `float(group)`. -/
def decVal (l : List Char) : ℚ :=
  let d := l.takeWhile Char.isDigit
  let r := l.dropWhile Char.isDigit
  match r with
  | '.' :: f => (digitsVal d : ℚ) + (digitsVal f : ℚ) / (10 : ℚ) ^ f.length
  | _ => (digitsVal d : ℚ)

/-- The tail of the pattern after the denominator: the optional single
space and the `(.*)$` capture.  The final `$` makes the match fail when a
newline occurs anywhere but as the very last character (Python `$` also
matches just before one trailing newline, which is then excluded from the
captured group). -/
def matchPlusRest (num r4 : List Char) : Option (ℚ × List Char) :=
  let r5 := if r4.head? = some ' ' then r4.tail else r4
  let body := if r5.getLast? = some '\n' then r5.dropLast else r5
  if '\n' ∈ body then none else some (decVal num, body)

/-- The pattern after the numerator: the literal `/`, the denominator
(whose digits are captured but unused), then `matchPlusRest`. -/
def matchPlusAfterNum (num r2 : List Char) : Option (ℚ × List Char) :=
  if r2.head? = some '/' then
    match parseDecimal r2.tail with
    | none => none
    | some p => matchPlusRest num p.2
  else none

/-- The part of the pattern after the literal `plus! ` tag:
`(\d+(\.\d+)?)/(\d+(\.\d+)?) ?(.*)$`. -/
def matchPlusTail (r1 : List Char) : Option (ℚ × List Char) :=
  match parseDecimal r1 with
  | none => none
  | some p => matchPlusAfterNum p.1 p.2

/-- The comment-pattern matcher on character lists.  On success returns the
numerator's value (group 1 through `float`) and the trailing free text
(group 5), exactly the two pieces `parse_actions` extracts. -/
def matchPlusL (l : List Char) : Option (ℚ × List Char) :=
  match l with
  | 'p' :: 'l' :: 'u' :: 's' :: '!' :: ' ' :: r1 => matchPlusTail r1
  | _ => none

/-- String-level wrapper: `pattern.match(text)` plus the two group reads. -/
def matchPlus (s : String) : Option (ℚ × String) :=
  (matchPlusL s.data).map (fun p => (p.1, String.mk p.2))

/-!
### General behaviour of the comment parser (claim C4)
-/

/-- The optional single space `' ?'` between the denominator and the free
text: what group 5 captures is the remainder after it. -/
def stripSp : List Char → List Char
  | c :: r => if c = ' ' then r else c :: r
  | [] => []

/-!
### Action aggregator (`parse_actions`)
-/

/-- One raw activity record, as consumed by `parse_actions`.  `date` is the
instant parsed from `action['date']` (`none` = `datetime.strptime` fails);
`text` is `action['data']['text']`; `card` is `action['data']['card']['id']`
(`none` = the nested key is absent). -/
structure RawAction where
  date : Option ℤ
  text : String
  card : Option String
deriving DecidableEq

/-- The two fatal error kinds of the aggregator (spec taxonomy): a
`strptime` failure and a missing nested card-identifier key. -/
inductive AggError where
  | inputFormatError
  | missingFieldError
deriving DecidableEq

/-- `round(x, 2)` on the exact model: round half to even at the integer
level, applied at two decimal places. -/
def roundHalfEven (q : ℚ) : ℤ :=
  if q - ⌊q⌋ < 1/2 then ⌊q⌋
  else if q - ⌊q⌋ > 1/2 then ⌊q⌋ + 1
  else if Even ⌊q⌋ then ⌊q⌋ else ⌊q⌋ + 1

/-- `round(x, 2)`. -/
def round2 (q : ℚ) : ℚ := (roundHalfEven (q * 100) : ℚ) / 100

/-- First loop of `parse_actions`: parse the date (raising on failure),
drop records strictly before `start_datetime`, run the comment pattern
(skipping non-matches), then read the card id (raising when absent). -/
def in_period_actions (start_datetime : ℤ) :
    List RawAction → Except AggError (List Action)
  | [] => .ok []
  | a :: rest =>
    match a.date with
    | none => .error .inputFormatError
    | some t =>
      if t < start_datetime then in_period_actions start_datetime rest
      else
        match matchPlus a.text with
        | none => in_period_actions start_datetime rest
        | some (v, comment) =>
          match a.card with
          | none => .error .missingFieldError
          | some cid =>
            (in_period_actions start_datetime rest).map
              (fun l => ⟨cid, comment, v⟩ :: l)

/-- Second part of `parse_actions`: group the surviving entries by card id
(`set` of ids, modelled in first-occurrence-free order by `List.dedup`),
re-filter the whole in-period list per id, sum and round the spends, and
keep the non-empty comments in filter order. -/
def group_spents (acts : List Action) : List Spent :=
  ((acts.map (fun a => a.card_id)).dedup).map (fun cid =>
    let card_actions := acts.filter (fun a => decide (a.card_id = cid))
    { card_id := cid
      comments := (card_actions.map (fun a => a.comment)).filter
        (fun c => decide (c ≠ ""))
      spent := round2 ((card_actions.map (fun a => a.spent)).sum) })

/-- `parse_actions` from `src/main.py`. -/
def parse_actions (actions : List RawAction) (start_datetime : ℤ) :
    Except AggError (List Spent) :=
  (in_period_actions start_datetime actions).map group_spents

/-!
### Report builder (`get_report`, `get_project_report`,
`get_category_reports`)
-/

/-- `cards[card_id]` on the id-keyed universe. -/
def lookupCard (cards : List Card) (cid : String) : Option Card :=
  cards.find? (fun c => c.id == cid)

/-- `card_id in cards.keys()`. -/
def cardKeys (cards : List Card) : List String := cards.map (fun c => c.id)

/-- `[card.id for card in cards.values() if lab in card.labels]`: the
membership test uses `Label.__eq__`, i.e. id-only comparison. -/
def idsWithLabel (cards : List Card) (lab : Label) : List String :=
  (cards.filter (fun c => c.labels.any (fun l => labelEqPy l lab))).map
    (fun c => c.id)

/-- `set(...)` over labels: dedup by label id (hash/eq are id-only),
modelled in first-occurrence order. -/
def dedupByIdAux (seen : List String) : List Label → List Label
  | [] => []
  | l :: rest =>
    if l.id ∈ seen then dedupByIdAux seen rest
    else l :: dedupByIdAux (l.id :: seen) rest

/-- `target_labels` construction of `get_report`. -/
def dedupById (ls : List Label) : List Label := dedupByIdAux [] ls

/-- Fallback bucket title used both for the synthetic project and the
synthetic category (the source uses the same literal for both). -/
def fallbackTitle : String := "?????????"

/-- One `TaskReport` built from one spend: title from the universe lookup
(always present at the call sites), spent copied, comments as sub-tasks. -/
def taskOf (cards : List Card) (s : Spent) : TaskReport :=
  { title := ((lookupCard cards s.card_id).getD ⟨"", "", []⟩).title
    spent := s.spent
    sub_tasks := s.comments.map (fun c => c) }

/-- Inner loop of `get_category_reports` over one category's spends:
skip spends already claimed (`added_card_ids`), else build a `TaskReport`
and claim the card id. -/
def addTasks (cards : List Card) :
    List Spent → List String → List TaskReport × List String
  | [], added => ([], added)
  | s :: rest, added =>
    if s.card_id ∈ added then addTasks cards rest added
    else
      let p := addTasks cards rest (s.card_id :: added)
      (taskOf cards s :: p.1, p.2)

/-- The `for category in categories` loop of `get_category_reports`,
threading `added_card_ids` explicitly. -/
def categoryLoop (cards : List Card) (spents : List Spent) :
    List Label → List String → List CategoryReport × List String
  | [], added => ([], added)
  | category :: rest, added =>
    let category_card_id_set := idsWithLabel cards category
    let category_spents :=
      spents.filter (fun s => decide (s.card_id ∈ category_card_id_set))
    if category_spents = [] then categoryLoop cards spents rest added
    else
      let p := addTasks cards category_spents added
      let category_spent := (p.1.map (fun t => t.spent)).sum
      let cr : CategoryReport :=
        { title := category.text, spent := category_spent, tasks := p.1 }
      let q := categoryLoop cards spents rest p.2
      (cr :: q.1, q.2)

/-- `get_category_reports` from `src/main.py`: the category loop followed
by the synthetic uncategorized bucket, which silently drops spends whose
card id is absent from the universe. -/
def get_category_reports (spents : List Spent) (categories : List Label)
    (cards : List Card) : List CategoryReport :=
  let p := categoryLoop cards spents categories []
  let uncategorized_project_spents :=
    spents.filter (fun s => decide (s.card_id ∉ p.2))
  if uncategorized_project_spents = [] then p.1
  else
    let task_reports :=
      (uncategorized_project_spents.filter
          (fun s => decide (s.card_id ∈ cardKeys cards))).map
        (fun s => taskOf cards s)
    let category_spent := (task_reports.map (fun t => t.spent)).sum
    p.1 ++ [{ title := fallbackTitle, spent := category_spent,
              tasks := task_reports }]

/-- `get_project_report` from `src/main.py`. -/
def get_project_report (project : String) (spents : List Spent)
    (categories : List Label) (cards : List Card) : ProjectReport :=
  let category_reports := get_category_reports spents categories cards
  { title := project
    spent := (category_reports.map (fun r => r.spent)).sum
    categories := category_reports }

/-- `spent_cards` of `get_report`: spends joined against the universe,
dropping ids absent from it. -/
def spent_cards_of (spents : List Spent) (cards : List Card) : List Card :=
  spents.filterMap (fun s => lookupCard cards s.card_id)

/-- `target_labels` of `get_report`. -/
def target_labels_of (spents : List Spent) (cards : List Card) :
    List Label :=
  dedupById ((spent_cards_of spents cards).map (fun c => c.labels)).flatten

/-- `target_projects` of `get_report`. -/
def target_projects_of (spents : List Spent) (cards : List Card)
    (projects : List String) : List Label :=
  (target_labels_of spents cards).filter (fun l => decide (l.text ∈ projects))

/-- `target_categories` of `get_report`. -/
def target_categories_of (spents : List Spent) (cards : List Card)
    (categories : List String) : List Label :=
  (target_labels_of spents cards).filter
    (fun l => decide (l.text ∈ categories))

/-- The `for project in target_projects` loop of `get_report`, threading
`added_card_ids` (the per-project card-id sets are unioned in BEFORE the
report is built, and the spend selection does not consult the set). -/
def projectLoop (cards : List Card) (spents : List Spent)
    (target_categories : List Label) :
    List Label → List String → List ProjectReport × List String
  | [], added => ([], added)
  | project :: rest, added =>
    let project_card_id_set := idsWithLabel cards project
    let added2 := added ++ project_card_id_set
    let project_spents :=
      spents.filter (fun s => decide (s.card_id ∈ project_card_id_set))
    let pr := get_project_report project.text project_spents
      target_categories cards
    let q := projectLoop cards spents target_categories rest added2
    (pr :: q.1, q.2)

/-- `get_report` from `src/main.py`, up to the construction of the
`DailyReport` value (file output and rendering are separate).  The
formatted start date is passed in as `date_str`. -/
def get_report (date_str : String) (spents : List Spent)
    (cards : List Card) (projects categories : List String) : DailyReport :=
  let tps := target_projects_of spents cards projects
  let tcs := target_categories_of spents cards categories
  let p := projectLoop cards spents tcs tps []
  let not_project_spents :=
    spents.filter (fun s => decide (s.card_id ∉ p.2))
  let project_reports :=
    if not_project_spents = [] then p.1
    else p.1 ++ [get_project_report fallbackTitle not_project_spents tcs cards]
  { title := date_str ++ " ??????"
    spent := (project_reports.map (fun r => r.spent)).sum
    projects := project_reports }

/-!
### Structured renderer (`get_dict`)
-/

/-- JSON-like values, the codomain of `get_dict`. -/
inductive JValue where
  | str : String → JValue
  | num : ℚ → JValue
  | arr : List JValue → JValue
  | obj : List (String × JValue) → JValue

/-- The task-level dictionary of `get_dict`.  The source (line 579) writes
`'spent': f'task.spent'` — an f-string with no braces — so the emitted
value is the literal string `task.spent`, not the number. -/
def task_dict (t : TaskReport) : JValue :=
  .obj [("title", .str t.title),
        ("spent", .str "task.spent"),
        ("sub_tasks", .arr (t.sub_tasks.map .str))]

/-- The category-level dictionary of `get_dict`. -/
def category_dict (c : CategoryReport) : JValue :=
  .obj [("title", .str c.title),
        ("spent", .num c.spent),
        ("tasks", .arr (c.tasks.map task_dict))]

/-- The project-level dictionary of `get_dict`. -/
def project_dict (p : ProjectReport) : JValue :=
  .obj [("title", .str p.title),
        ("spent", .num p.spent),
        ("categories", .arr (p.categories.map category_dict))]

/-- `get_dict` from `src/main.py`. -/
def get_dict (report : DailyReport) : JValue :=
  .obj [("title", .str report.title),
        ("spent", .num report.spent),
        ("projects", .arr (report.projects.map project_dict))]

/-!
### Derived quantities used by the claims
-/

/-- Sum of `TaskReport.spent` over every task anywhere in a report. -/
def dailyTasksSum (r : DailyReport) : ℚ :=
  (r.projects.map (fun p =>
    (p.categories.map (fun c => (c.tasks.map (fun t => t.spent)).sum)).sum)).sum

/-- The card ids claimed by the project loop: the union (as concatenation)
of every target project's card-id set. -/
def claimedIds (cards : List Card) (tps : List Label) : List String :=
  (tps.map (fun p => idsWithLabel cards p)).flatten

/-!
### Concrete fixtures
-/

/-- Fixture label `ProjectX`. -/
def labelPX : Label := ⟨"lpx", "ProjectX"⟩

/-- Fixture label `CategoryY`. -/
def labelCY : Label := ⟨"lcy", "CategoryY"⟩

/-- Fixture card A: label ProjectX. -/
def cardA : Card := ⟨"a", "Task A", [labelPX]⟩

/-- Fixture card B: labels ProjectX and CategoryY. -/
def cardB : Card := ⟨"b", "Task B", [labelPX, labelCY]⟩

/-- Fixture card C: no labels. -/
def cardC : Card := ⟨"c", "Task C", []⟩

/-- Fixture universe for the end-to-end example. -/
def univABC : List Card := [cardA, cardB, cardC]

/-- Fixture spends for the end-to-end example: A=2.00, B=1.50, C=0.75. -/
def spentsABC : List Spent := [⟨"a", [], 2⟩, ⟨"b", [], 3/2⟩, ⟨"c", [], 3/4⟩]

/-- The expected end-to-end tree of the spec's §8 example. -/
def c8Expected : DailyReport :=
  { title := "2021/05/01 ??????"
    spent := 17/4
    projects :=
      [{ title := "ProjectX", spent := 7/2,
         categories :=
           [{ title := "CategoryY", spent := 3/2,
              tasks := [{ title := "Task B", spent := 3/2, sub_tasks := [] }] },
            { title := fallbackTitle, spent := 2,
              tasks := [{ title := "Task A", spent := 2, sub_tasks := [] }] }] },
       { title := fallbackTitle, spent := 3/4,
         categories :=
           [{ title := fallbackTitle, spent := 3/4,
              tasks := [{ title := "Task C", spent := 3/4,
                          sub_tasks := [] }] }] }] }

/-- Fixture label P1 (a configured project). -/
def labelP1 : Label := ⟨"l1", "P1"⟩

/-- Fixture label P2 (a second configured project). -/
def labelP2 : Label := ⟨"l2", "P2"⟩

/-- Fixture card carrying both configured project labels. -/
def cardX : Card := ⟨"x", "Task X", [labelP1, labelP2]⟩

/-- Fixture card Y: label P2 only. -/
def cardY : Card := ⟨"y", "Task Y", [labelP2]⟩

/-- Fixture card Z: label P1 only. -/
def cardZ : Card := ⟨"z", "Task Z", [labelP1]⟩

/-- Fixture label C1 (a configured category). -/
def labelC1 : Label := ⟨"c1", "C1"⟩

/-- Fixture label C2 (a second configured category). -/
def labelC2 : Label := ⟨"c2", "C2"⟩

/-- Fixture card carrying both configured category labels. -/
def cardW : Card := ⟨"w", "Task W", [labelC1, labelC2]⟩

/-- The record-level condition under which the card-identifier access is
reached and fails: date parses, in window, comment matches, card absent. -/
def cardFieldFails (s : ℤ) (a : RawAction) : Prop :=
  ∃ t, a.date = some t ∧ ¬ t < s ∧ matchPlus a.text ≠ none ∧ a.card = none

/-- Discriminator: is a structured-report value a number? -/
def isNumJ : JValue → Bool
  | .num _ => true
  | _ => false

lemma takeWhile_dropWhile_app (d r : List Char)
    (hd : ∀ c ∈ d, Char.isDigit c = true)
    (hr : ∀ c, r.head? = some c → Char.isDigit c = false) :
    (d ++ r).takeWhile Char.isDigit = d
    ∧ (d ++ r).dropWhile Char.isDigit = r := by
  induction d with
  | nil =>
    cases r with
    | nil => simp
    | cons c r' =>
      have hc := hr c rfl
      simp [List.takeWhile_cons, List.dropWhile_cons, hc]
  | cons a d' ih =>
    have ha : Char.isDigit a = true := hd a (List.mem_cons_self a d')
    have h' := ih (fun c hc => hd c (List.mem_cons_of_mem a hc))
    simp [List.takeWhile_cons, List.dropWhile_cons, ha, h'.1, h'.2]

lemma isDecStr_structure (l : List Char) (h : isDecStr l) :
    ∃ a, a ≠ [] ∧ (∀ c ∈ a, Char.isDigit c = true) ∧
      (l = a ∨ ∃ f, f ≠ [] ∧ (∀ c ∈ f, Char.isDigit c = true) ∧
        l = a ++ '.' :: f) := by
  have hsplit : l.takeWhile Char.isDigit ++ l.dropWhile Char.isDigit = l :=
    List.takeWhile_append_dropWhile Char.isDigit l
  have hdig : ∀ c ∈ l.takeWhile Char.isDigit, Char.isDigit c = true :=
    fun c hc => List.mem_takeWhile_imp hc
  unfold isDecStr parseDecimal at h
  simp only [] at h
  by_cases hne : l.takeWhile Char.isDigit = []
  · rw [if_pos hne] at h
    cases h
  · rw [if_neg hne] at h
    by_cases hdot : (l.dropWhile Char.isDigit).head? = some '.'
    · rw [if_pos hdot] at h
      by_cases h2 :
          (l.dropWhile Char.isDigit).tail.takeWhile Char.isDigit = []
      · rw [if_pos h2] at h
        simp only [Option.some.injEq, Prod.mk.injEq] at h
        rw [h.2] at hdot
        cases hdot
      · rw [if_neg h2] at h
        simp only [Option.some.injEq, Prod.mk.injEq] at h
        exact ⟨l.takeWhile Char.isDigit, hne, hdig, Or.inr
          ⟨(l.dropWhile Char.isDigit).tail.takeWhile Char.isDigit, h2,
            fun c hc => List.mem_takeWhile_imp hc, h.1.symm⟩⟩
    · rw [if_neg hdot] at h
      simp only [Option.some.injEq, Prod.mk.injEq] at h
      exact ⟨l.takeWhile Char.isDigit, hne, hdig, Or.inl h.1.symm⟩

lemma parseDecimal_complete (l r : List Char) (h : isDecStr l)
    (hr : ∀ c, r.head? = some c → Char.isDigit c = false ∧ c ≠ '.') :
    parseDecimal (l ++ r) = some (l, r) := by
  obtain ⟨a, hane, hadig, hacase⟩ := isDecStr_structure l h
  have hrdig : ∀ c, r.head? = some c → Char.isDigit c = false :=
    fun c hc => (hr c hc).1
  have hrdot : ∀ c, r.head? = some c → (c = '.') = False :=
    fun c hc => eq_false (hr c hc).2
  rcases hacase with hla | ⟨f, hfne, hfdig, hlf⟩
  · obtain ⟨h1, h2⟩ := takeWhile_dropWhile_app a r hadig hrdig
    rw [hla]
    unfold parseDecimal
    simp only [h1, h2, if_neg hane]
    cases r with
    | nil => simp
    | cons c r' =>
      have hc := hr c rfl
      simp [List.head?_cons, hc.2]
  · have hdot : ∀ c, ('.' :: (f ++ r)).head? = some c →
        Char.isDigit c = false := by
      intro c hc
      simp only [List.head?_cons, Option.some.injEq] at hc
      rw [← hc]
      decide
    obtain ⟨h1, h2⟩ := takeWhile_dropWhile_app a ('.' :: (f ++ r)) hadig hdot
    obtain ⟨h3, h4⟩ := takeWhile_dropWhile_app f r hfdig hrdig
    rw [hlf, List.append_assoc a ('.' :: f) r, List.cons_append]
    unfold parseDecimal
    simp only [h1, h2, if_neg hane, List.head?_cons, List.tail_cons, h3, h4,
      if_pos rfl, if_neg hfne, if_true]

lemma stripSp_no_newline (t : List Char) (hnl : '\n' ∉ t) :
    '\n' ∉ stripSp t := by
  intro hmem
  apply hnl
  cases t with
  | nil => exact absurd hmem (by simp [stripSp])
  | cons c r =>
    by_cases hc : c = ' '
    · simp only [stripSp, if_pos hc] at hmem
      exact List.mem_cons_of_mem c hmem
    · simpa [stripSp, if_neg hc] using hmem

lemma matchPlusRest_complete (num t : List Char)
    (ht : t = [] ∨ t.head? = some ' ') (hnl : '\n' ∉ t) :
    matchPlusRest num t = some (decVal num, stripSp t) := by
  have hr5 : (if t.head? = some ' ' then t.tail else t) = stripSp t := by
    rcases ht with rfl | hsp
    · rfl
    · cases t with
      | nil => cases hsp
      | cons c r =>
        simp only [List.head?_cons, Option.some.injEq] at hsp
        simp [hsp, stripSp]
  have hnl5 : '\n' ∉ stripSp t := stripSp_no_newline t hnl
  have hlast : ¬ (stripSp t).getLast? = some '\n' := by
    intro hl
    obtain ⟨hne', hform⟩ :=
      List.mem_getLast?_eq_getLast (Option.mem_def.mpr hl)
    exact hnl5 (hform ▸ List.getLast_mem hne')
  unfold matchPlusRest
  simp only [hr5, if_neg hlast, if_neg hnl5]

lemma matchPlusTail_complete (n d t : List Char)
    (hn : isDecStr n) (hd : isDecStr d)
    (ht : t = [] ∨ t.head? = some ' ') (hnl : '\n' ∉ t) :
    matchPlusTail (n ++ '/' :: (d ++ t)) = some (decVal n, stripSp t) := by
  have hslash : ∀ c, ('/' :: (d ++ t)).head? = some c →
      Char.isDigit c = false ∧ c ≠ '.' := by
    intro c hc
    simp only [List.head?_cons, Option.some.injEq] at hc
    rw [← hc]
    exact ⟨by decide, by decide⟩
  have htail : ∀ c, t.head? = some c →
      Char.isDigit c = false ∧ c ≠ '.' := by
    intro c hc
    rcases ht with rfl | hsp
    · cases hc
    · rw [hsp] at hc
      simp only [Option.some.injEq] at hc
      rw [← hc]
      exact ⟨by decide, by decide⟩
  unfold matchPlusTail
  rw [parseDecimal_complete n ('/' :: (d ++ t)) hn hslash]
  show matchPlusAfterNum n ('/' :: (d ++ t)) = some (decVal n, stripSp t)
  unfold matchPlusAfterNum
  rw [if_pos (show ('/' :: (d ++ t)).head? = some '/' from rfl)]
  rw [show ('/' :: (d ++ t)).tail = d ++ t from rfl]
  rw [parseDecimal_complete d t hd htail]
  show matchPlusRest n t = some (decVal n, stripSp t)
  exact matchPlusRest_complete n t ht hnl

lemma matchPlusL_tag (r1 : List Char) :
    matchPlusL ('p' :: 'l' :: 'u' :: 's' :: '!' :: ' ' :: r1)
      = matchPlusTail r1 := rfl

/-- Claim C4: the comment parser matches exactly
`plus! <numerator>/<denominator>[ <free-text>]` anchored start-to-end; on a
match it returns the numerator's decimal value as the spend and the
(possibly empty) trailing free text as the comment, and the denominator
does not influence the result; leading prose, unrelated strings, or text
beyond the pattern's own line give no entry.  The spec's three concrete
examples are included. -/
theorem c4_comment_matcher (n d1 d2 t : String)
    (hn : isDecStr n.data) (hd1 : isDecStr d1.data) (hd2 : isDecStr d2.data)
    (ht : t.data = [] ∨ t.data.head? = some ' ') (hnl : '\n' ∉ t.data) :
    matchPlus ("plus! " ++ n ++ "/" ++ d1 ++ t)
      = some (decVal n.data, String.mk (stripSp t.data))
    ∧ matchPlus ("plus! " ++ n ++ "/" ++ d2 ++ t)
      = matchPlus ("plus! " ++ n ++ "/" ++ d1 ++ t)
    ∧ matchPlus "plus! 2/8 fixed bug" = some (2, "fixed bug")
    ∧ matchPlus "plus! 1.5/4" = some (3/2, "")
    ∧ matchPlus "not a match" = none
    ∧ matchPlus "see plus! 2/8 fix" = none
    ∧ matchPlus "plus! 2/8 fix\nmore prose" = none := by
  have key : ∀ d : String, isDecStr d.data →
      matchPlus ("plus! " ++ n ++ "/" ++ d ++ t)
        = some (decVal n.data, String.mk (stripSp t.data)) := by
    intro d hd
    have hdata : ("plus! " ++ n ++ "/" ++ d ++ t).data
        = 'p' :: 'l' :: 'u' :: 's' :: '!' :: ' '
          :: (n.data ++ '/' :: (d.data ++ t.data)) := by
      simp [String.data_append]
    unfold matchPlus
    rw [hdata, matchPlusL_tag,
      matchPlusTail_complete n.data d.data t.data hn hd ht hnl]
    rfl
  refine ⟨key d1 hd1, by rw [key d1 hd1, key d2 hd2], by decide,
    by with_unfolding_all rfl, by decide, by decide, by decide⟩

/-- Closed instance of `c4_comment_matcher` at numerator 2, denominators 8
and 4, free text " x". -/
theorem c4_comment_matcher_witness :
    matchPlus ("plus! " ++ "2" ++ "/" ++ "8" ++ " x")
      = some (decVal "2".data, String.mk (stripSp " x".data))
    ∧ matchPlus ("plus! " ++ "2" ++ "/" ++ "4" ++ " x")
      = matchPlus ("plus! " ++ "2" ++ "/" ++ "8" ++ " x") := by
  have h := c4_comment_matcher "2" "8" "4" " x" (by decide) (by decide)
    (by decide) (Or.inr (by decide)) (by decide)
  exact ⟨h.1, h.2.1⟩

/-- Claim C8: on the concrete end-to-end input (cards A with label
ProjectX, B with labels ProjectX and CategoryY, C with no labels;
spends A=2.00, B=1.50, C=0.75; projects=[ProjectX];
categories=[CategoryY]; all three cards in the universe), the report
builder produces exactly Daily(4.25) containing ProjectX(3.50) with
categories [CategoryY(1.50) holding task B, uncategorized(2.00) holding
task A], followed by the unassigned project (0.75) with the single
category uncategorized(0.75) holding task C. -/
theorem c8_end_to_end :
    get_report "2021/05/01" spentsABC univABC ["ProjectX"] ["CategoryY"]
      = c8Expected := by
  with_unfolding_all rfl

/-- Claim C3, counterexample: a single spend of 1.00 on a card that
carries two configured project labels (P1 and P2) is turned into one
TaskReport under each project, so the tree's task total is 2.00 while the
in-universe spend total is 1.00 — the claim's equality fails. -/
theorem c3_counterexample :
    dailyTasksSum (get_report "d" [⟨"x", [], 1⟩] [cardX] ["P1", "P2"] []) = 2
    ∧ ((([⟨"x", [], 1⟩] : List Spent).filter
          (fun s => decide ((lookupCard [cardX] s.card_id).isSome))).map
        (fun s => s.spent)).sum = 1
    ∧ (2 : ℚ) ≠ 1 := by
  refine ⟨by with_unfolding_all rfl, by with_unfolding_all rfl, by norm_num⟩

/-- Claim C2, counterexample: with projects configured as [P1, P2] and
spending cards encountered in the order card Y (label P2), card Z
(label P1), the emitted ProjectReports come out in label-encounter order
[P2, P1], not in the configured order [P1, P2]. -/
theorem c2_counterexample :
    ((get_report "d" [⟨"y", [], 1⟩, ⟨"z", [], 1⟩] [cardY, cardZ]
        ["P1", "P2"] []).projects.map (fun p => p.title))
      = ["P2", "P1"]
    ∧ (["P2", "P1"] : List String) ≠ ["P1", "P2"] := by
  refine ⟨by with_unfolding_all rfl, by decide⟩

/-!
### Structure of the category and project loops
-/

lemma lookupCard_isSome_of_mem_ids (cards : List Card) (x : String)
    (lab : Label) (h : x ∈ idsWithLabel cards lab) :
    (lookupCard cards x).isSome := by
  unfold idsWithLabel at h
  obtain ⟨c, hc, rfl⟩ := List.mem_map.mp h
  have hc' := (List.mem_filter.mp hc).1
  unfold lookupCard
  rw [List.find?_isSome]
  exact ⟨c, hc', by simp⟩

lemma mem_cardKeys_iff_isSome (cards : List Card) (x : String) :
    x ∈ cardKeys cards ↔ (lookupCard cards x).isSome := by
  unfold cardKeys lookupCard
  rw [List.find?_isSome]
  constructor
  · intro h
    obtain ⟨c, hc, rfl⟩ := List.mem_map.mp h
    exact ⟨c, hc, by simp⟩
  · rintro ⟨c, hc, hcx⟩
    have : c.id = x := by simpa using hcx
    exact this ▸ List.mem_map_of_mem (fun c => c.id) hc

lemma addTasks_added_mem (cards : List Card) (spents : List Spent)
    (added : List String) (x : String) :
    x ∈ (addTasks cards spents added).2 ↔
      x ∈ added ∨ ∃ s ∈ spents, s.card_id = x := by
  induction spents generalizing added with
  | nil => simp [addTasks]
  | cons s rest ih =>
    by_cases hmem : s.card_id ∈ added
    · rw [show addTasks cards (s :: rest) added = addTasks cards rest added
        by simp [addTasks, hmem]]
      rw [ih added]
      constructor
      · rintro (h | ⟨b, hb, hbx⟩)
        · exact Or.inl h
        · exact Or.inr ⟨b, List.mem_cons_of_mem s hb, hbx⟩
      · rintro (h | ⟨b, hb, hbx⟩)
        · exact Or.inl h
        · rcases List.mem_cons.mp hb with rfl | hb'
          · exact Or.inl (hbx ▸ hmem)
          · exact Or.inr ⟨b, hb', hbx⟩
    · rw [show (addTasks cards (s :: rest) added).2
          = (addTasks cards rest (s.card_id :: added)).2
        by simp [addTasks, hmem]]
      rw [ih (s.card_id :: added)]
      simp only [List.mem_cons]
      constructor
      · rintro ((h | h) | ⟨b, hb, hbx⟩)
        · exact Or.inr ⟨s, Or.inl rfl, h.symm⟩
        · exact Or.inl h
        · exact Or.inr ⟨b, Or.inr hb, hbx⟩
      · rintro (h | ⟨b, hb | hb, hbx⟩)
        · exact Or.inl (Or.inr h)
        · exact Or.inl (Or.inl (hb ▸ hbx.symm))
        · exact Or.inr ⟨b, hb, hbx⟩

lemma addTasks_all_claimed (cards : List Card) (spents : List Spent)
    (added : List String) (h : ∀ s ∈ spents, s.card_id ∈ added) :
    addTasks cards spents added = ([], added) := by
  induction spents with
  | nil => rfl
  | cons s rest ih =>
    have hs := h s (List.mem_cons_self s rest)
    rw [show addTasks cards (s :: rest) added = addTasks cards rest added
      by simp [addTasks, hs]]
    exact ih (fun b hb => h b (List.mem_cons_of_mem s hb))

lemma addTasks_tasks (cards : List Card) (spents : List Spent)
    (added : List String)
    (hnd : (spents.map (fun s => s.card_id)).Nodup) :
    (addTasks cards spents added).1
      = (spents.filter (fun s => decide (s.card_id ∉ added))).map
          (fun s => taskOf cards s) := by
  induction spents generalizing added with
  | nil => rfl
  | cons s rest ih =>
    rw [List.map_cons, List.nodup_cons] at hnd
    by_cases hmem : s.card_id ∈ added
    · rw [show addTasks cards (s :: rest) added = addTasks cards rest added
        by simp [addTasks, hmem]]
      rw [List.filter_cons_of_neg (by simpa using hmem)]
      exact ih added hnd.2
    · rw [show (addTasks cards (s :: rest) added).1
          = taskOf cards s :: (addTasks cards rest (s.card_id :: added)).1
        by simp [addTasks, hmem]]
      rw [List.filter_cons_of_pos (by simpa using hmem), List.map_cons]
      rw [ih (s.card_id :: added) hnd.2]
      congr 1
      apply congrArg
      apply List.filter_congr
      intro b hb
      have hbs : b.card_id ≠ s.card_id := by
        intro he
        exact hnd.1 (he ▸ List.mem_map_of_mem (fun s => s.card_id) hb)
      simp [List.mem_cons, hbs]

lemma addTasks_tasks_sources (cards : List Card) (spents : List Spent)
    (added : List String) :
    ∀ t ∈ (addTasks cards spents added).1, ∃ s ∈ spents,
      t = taskOf cards s := by
  induction spents generalizing added with
  | nil => simp [addTasks]
  | cons s rest ih =>
    intro t ht
    by_cases hmem : s.card_id ∈ added
    · rw [show addTasks cards (s :: rest) added = addTasks cards rest added
        by simp [addTasks, hmem]] at ht
      obtain ⟨b, hb, hbt⟩ := ih added t ht
      exact ⟨b, List.mem_cons_of_mem s hb, hbt⟩
    · rw [show (addTasks cards (s :: rest) added).1
          = taskOf cards s :: (addTasks cards rest (s.card_id :: added)).1
        by simp [addTasks, hmem]] at ht
      rcases List.mem_cons.mp ht with rfl | ht'
      · exact ⟨s, List.mem_cons_self s rest, rfl⟩
      · obtain ⟨b, hb, hbt⟩ := ih (s.card_id :: added) t ht'
        exact ⟨b, List.mem_cons_of_mem s hb, hbt⟩

lemma categoryLoop_added_mem (cards : List Card) (spents : List Spent)
    (cats : List Label) (added : List String) (x : String) :
    x ∈ (categoryLoop cards spents cats added).2 ↔
      x ∈ added ∨ ∃ s ∈ spents, s.card_id = x ∧
        ∃ c ∈ cats, s.card_id ∈ idsWithLabel cards c := by
  induction cats generalizing added with
  | nil => simp [categoryLoop]
  | cons c rest ih =>
    by_cases hemp : spents.filter
        (fun s => decide (s.card_id ∈ idsWithLabel cards c)) = []
    · rw [show categoryLoop cards spents (c :: rest) added
          = categoryLoop cards spents rest added
        by simp [categoryLoop, hemp]]
      rw [ih added]
      have hnotc : ∀ s ∈ spents, s.card_id ∉ idsWithLabel cards c := by
        intro s hs hmem
        have := List.filter_eq_nil_iff.mp hemp s hs
        simp [hmem] at this
      constructor
      · rintro (h | ⟨b, hb, hbx, c', hc', hcb⟩)
        · exact Or.inl h
        · exact Or.inr ⟨b, hb, hbx, c', List.mem_cons_of_mem c hc', hcb⟩
      · rintro (h | ⟨b, hb, hbx, c', hc', hcb⟩)
        · exact Or.inl h
        · rcases List.mem_cons.mp hc' with rfl | hc''
          · exact absurd hcb (hnotc b hb)
          · exact Or.inr ⟨b, hb, hbx, c', hc'', hcb⟩
    · rw [show (categoryLoop cards spents (c :: rest) added).2
          = (categoryLoop cards spents rest
              (addTasks cards (spents.filter
                (fun s => decide (s.card_id ∈ idsWithLabel cards c)))
                added).2).2
        by simp [categoryLoop, hemp]]
      rw [ih _, addTasks_added_mem]
      constructor
      · rintro ((h | ⟨b, hb, hbx⟩) | ⟨b, hb, hbx, c', hc', hcb⟩)
        · exact Or.inl h
        · obtain ⟨hb', hbc⟩ := List.mem_filter.mp hb
          exact Or.inr ⟨b, hb', hbx, c, List.mem_cons_self c rest,
            by simpa using hbc⟩
        · exact Or.inr ⟨b, hb, hbx, c', List.mem_cons_of_mem c hc', hcb⟩
      · rintro (h | ⟨b, hb, hbx, c', hc', hcb⟩)
        · exact Or.inl (Or.inl h)
        · rcases List.mem_cons.mp hc' with rfl | hc''
          · exact Or.inl (Or.inr ⟨b, List.mem_filter.mpr
              ⟨hb, by simpa using hcb⟩, hbx⟩)
          · exact Or.inr ⟨b, hb, hbx, c', hc'', hcb⟩

lemma categoryLoop_titles (cards : List Card) (spents : List Spent)
    (cats : List Label) (added : List String) :
    ((categoryLoop cards spents cats added).1).map (fun cr => cr.title)
      = (cats.filter (fun c => decide (spents.filter
          (fun s => decide (s.card_id ∈ idsWithLabel cards c)) ≠ []))).map
        (fun c => c.text) := by
  induction cats generalizing added with
  | nil => simp [categoryLoop]
  | cons c rest ih =>
    by_cases hemp : spents.filter
        (fun s => decide (s.card_id ∈ idsWithLabel cards c)) = []
    · rw [show categoryLoop cards spents (c :: rest) added
          = categoryLoop cards spents rest added
        by simp [categoryLoop, hemp]]
      rw [List.filter_cons_of_neg (by simpa using hemp)]
      exact ih added
    · rw [show (categoryLoop cards spents (c :: rest) added).1
          = { title := c.text,
              spent := (((addTasks cards (spents.filter
                (fun s => decide (s.card_id ∈ idsWithLabel cards c)))
                added).1).map (fun t => t.spent)).sum,
              tasks := (addTasks cards (spents.filter
                (fun s => decide (s.card_id ∈ idsWithLabel cards c)))
                added).1 }
            :: (categoryLoop cards spents rest
                (addTasks cards (spents.filter
                  (fun s => decide (s.card_id ∈ idsWithLabel cards c)))
                  added).2).1
        by simp [categoryLoop, hemp]]
      rw [List.filter_cons_of_pos (by simpa using hemp)]
      simp only [List.map_cons]
      rw [ih _]

lemma categoryLoop_tasks_sources (cards : List Card) (spents : List Spent)
    (cats : List Label) (added : List String) :
    ∀ cr ∈ (categoryLoop cards spents cats added).1, ∀ t ∈ cr.tasks,
      ∃ s ∈ spents, (lookupCard cards s.card_id).isSome
        ∧ t = taskOf cards s := by
  induction cats generalizing added with
  | nil => simp [categoryLoop]
  | cons c rest ih =>
    intro cr hcr t ht
    by_cases hemp : spents.filter
        (fun s => decide (s.card_id ∈ idsWithLabel cards c)) = []
    · rw [show categoryLoop cards spents (c :: rest) added
          = categoryLoop cards spents rest added
        by simp [categoryLoop, hemp]] at hcr
      exact ih added cr hcr t ht
    · rw [show (categoryLoop cards spents (c :: rest) added).1
          = { title := c.text,
              spent := (((addTasks cards (spents.filter
                (fun s => decide (s.card_id ∈ idsWithLabel cards c)))
                added).1).map (fun t => t.spent)).sum,
              tasks := (addTasks cards (spents.filter
                (fun s => decide (s.card_id ∈ idsWithLabel cards c)))
                added).1 }
            :: (categoryLoop cards spents rest
                (addTasks cards (spents.filter
                  (fun s => decide (s.card_id ∈ idsWithLabel cards c)))
                  added).2).1
        by simp [categoryLoop, hemp]] at hcr
      rcases List.mem_cons.mp hcr with rfl | hcr'
      · obtain ⟨s, hs, hst⟩ := addTasks_tasks_sources cards _ added t ht
        obtain ⟨hs', hsc⟩ := List.mem_filter.mp hs
        exact ⟨s, hs', lookupCard_isSome_of_mem_ids cards s.card_id c
          (by simpa using hsc), hst⟩
      · exact ih _ cr hcr' t ht

lemma gcr_tasks_sources (spents : List Spent) (cats : List Label)
    (cards : List Card) :
    ∀ cr ∈ get_category_reports spents cats cards, ∀ t ∈ cr.tasks,
      ∃ s ∈ spents, (lookupCard cards s.card_id).isSome
        ∧ t = taskOf cards s := by
  intro cr hcr t ht
  unfold get_category_reports at hcr
  by_cases hemp : spents.filter
      (fun s => decide (s.card_id ∉ (categoryLoop cards spents cats []).2))
        = []
  · rw [if_pos hemp] at hcr
    exact categoryLoop_tasks_sources cards spents cats [] cr hcr t ht
  · rw [if_neg hemp] at hcr
    rcases List.mem_append.mp hcr with hcr' | hcr'
    · exact categoryLoop_tasks_sources cards spents cats [] cr hcr' t ht
    · rcases List.mem_singleton.mp hcr' with rfl
      simp only [] at ht
      obtain ⟨s, hs, hst⟩ := List.mem_map.mp ht
      obtain ⟨hs1, hs2⟩ := List.mem_filter.mp hs
      obtain ⟨hs3, _⟩ := List.mem_filter.mp hs1
      refine ⟨s, hs3, ?_, hst.symm⟩
      rw [← mem_cardKeys_iff_isSome]
      simpa using hs2

lemma gcr_titles (spents : List Spent) (cats : List Label)
    (cards : List Card) :
    (get_category_reports spents cats cards).map (fun cr => cr.title)
      = (cats.filter (fun c => decide (spents.filter
            (fun s => decide (s.card_id ∈ idsWithLabel cards c)) ≠ []))).map
          (fun c => c.text)
        ++ (if spents.filter (fun s => decide
              (¬ ∃ c ∈ cats, s.card_id ∈ idsWithLabel cards c)) = []
            then [] else [fallbackTitle]) := by
  have hfe : spents.filter
      (fun s => decide (s.card_id ∉ (categoryLoop cards spents cats []).2))
    = spents.filter (fun s => decide
        (¬ ∃ c ∈ cats, s.card_id ∈ idsWithLabel cards c)) := by
    apply List.filter_congr
    intro s hs
    have := categoryLoop_added_mem cards spents cats [] s.card_id
    simp only [List.not_mem_nil, false_or] at this
    have hiff : s.card_id ∈ (categoryLoop cards spents cats []).2 ↔
        ∃ c ∈ cats, s.card_id ∈ idsWithLabel cards c := by
      rw [this]
      constructor
      · rintro ⟨b, _, hbx, c, hc, hcb⟩
        exact ⟨c, hc, hbx ▸ hcb⟩
      · rintro ⟨c, hc, hcb⟩
        exact ⟨s, hs, rfl, c, hc, hcb⟩
    simp [hiff]
  simp only [get_category_reports]
  rw [hfe]
  by_cases hemp : spents.filter (fun s => decide
      (¬ ∃ c ∈ cats, s.card_id ∈ idsWithLabel cards c)) = []
  · rw [if_pos hemp, if_pos hemp, List.append_nil]
    exact categoryLoop_titles cards spents cats []
  · rw [if_neg hemp, if_neg hemp, List.map_append]
    rw [categoryLoop_titles cards spents cats []]
    rfl

lemma projectLoop_added (cards : List Card) (spents : List Spent)
    (tcs : List Label) (tps : List Label) (added : List String) :
    (projectLoop cards spents tcs tps added).2
      = added ++ claimedIds cards tps := by
  induction tps generalizing added with
  | nil => simp [projectLoop, claimedIds]
  | cons p rest ih =>
    rw [show (projectLoop cards spents tcs (p :: rest) added).2
        = (projectLoop cards spents tcs rest
            (added ++ idsWithLabel cards p)).2 by simp [projectLoop]]
    rw [ih]
    simp [claimedIds, List.append_assoc]

lemma projectLoop_reports (cards : List Card) (spents : List Spent)
    (tcs : List Label) (tps : List Label) (added : List String) :
    (projectLoop cards spents tcs tps added).1
      = tps.map (fun p => get_project_report p.text
          (spents.filter (fun s =>
            decide (s.card_id ∈ idsWithLabel cards p))) tcs cards) := by
  induction tps generalizing added with
  | nil => simp [projectLoop]
  | cons p rest ih =>
    rw [show (projectLoop cards spents tcs (p :: rest) added).1
        = get_project_report p.text
            (spents.filter (fun s =>
              decide (s.card_id ∈ idsWithLabel cards p))) tcs cards
          :: (projectLoop cards spents tcs rest
              (added ++ idsWithLabel cards p)).1 by simp [projectLoop]]
    rw [List.map_cons, ih]

/-!
### Spend conservation (claim C3)
-/

lemma sum_map_zero {α : Type} (l : List α) :
    (l.map (fun _ => (0 : ℚ))).sum = 0 := by
  induction l <;> simp [*]

lemma sum_map_add {α : Type} (f g : α → ℚ) (l : List α) :
    (l.map (fun x => f x + g x)).sum = (l.map f).sum + (l.map g).sum := by
  induction l with
  | nil => simp
  | cons a l ih =>
    simp only [List.map_cons, List.sum_cons, ih]
    ring

lemma sum_filter_decide_ite {α : Type} (P : α → Prop) [DecidablePred P]
    (f : α → ℚ) (l : List α) :
    ((l.filter (fun x => decide (P x))).map f).sum
      = (l.map (fun x => if P x then f x else 0)).sum := by
  induction l with
  | nil => rfl
  | cons a l ih =>
    by_cases hp : P a <;> simp [List.filter_cons, hp, ih]

lemma ite_or_split (P Q R : Prop) [Decidable P] [Decidable Q] [Decidable R]
    (v : ℚ) :
    (if P ∧ (Q ∨ R) then v else 0)
      = (if P ∧ Q then v else 0) + (if P ∧ ¬Q ∧ R then v else 0) := by
  by_cases hp : P <;> by_cases hq : Q <;> by_cases hr : R <;>
    simp [hp, hq, hr]

lemma claimedIds_mem (cards : List Card) (tps : List Label) (x : String) :
    x ∈ claimedIds cards tps ↔ ∃ p ∈ tps, x ∈ idsWithLabel cards p := by
  unfold claimedIds
  rw [List.mem_flatten]
  constructor
  · rintro ⟨l, hl, hx⟩
    obtain ⟨p, hp, rfl⟩ := List.mem_map.mp hl
    exact ⟨p, hp, hx⟩
  · rintro ⟨p, hp, hx⟩
    exact ⟨idsWithLabel cards p, List.mem_map_of_mem _ hp, hx⟩

lemma categoryLoop_final_added_iff (cards : List Card) (spents : List Spent)
    (cats : List Label) (s : Spent) (hs : s ∈ spents) :
    s.card_id ∈ (categoryLoop cards spents cats []).2 ↔
      ∃ c ∈ cats, s.card_id ∈ idsWithLabel cards c := by
  rw [categoryLoop_added_mem]
  simp only [List.not_mem_nil, false_or]
  constructor
  · rintro ⟨b, _, hbx, c, hc, hcb⟩
    exact ⟨c, hc, hbx ▸ hcb⟩
  · rintro ⟨c, hc, hcb⟩
    exact ⟨s, hs, rfl, c, hc, hcb⟩

lemma categoryLoop_tasks_sum (cards : List Card) (spents : List Spent)
    (cats : List Label) (added : List String)
    (hnd : (spents.map (fun s => s.card_id)).Nodup) :
    (((categoryLoop cards spents cats added).1).map
        (fun cr => (cr.tasks.map (fun t => t.spent)).sum)).sum
      = (spents.map (fun s =>
          if s.card_id ∉ added
              ∧ ∃ c ∈ cats, s.card_id ∈ idsWithLabel cards c
          then s.spent else 0)).sum := by
  induction cats generalizing added with
  | nil =>
    rw [show categoryLoop cards spents [] added = ([], added) from rfl]
    have hz : ∀ s ∈ spents,
        (if s.card_id ∉ added
            ∧ ∃ c ∈ ([] : List Label), s.card_id ∈ idsWithLabel cards c
         then s.spent else 0) = (fun _ : Spent => (0 : ℚ)) s := by
      intro s _
      simp
    rw [List.map_congr_left hz, sum_map_zero]
    rfl
  | cons c rest ih =>
    by_cases hemp : spents.filter
        (fun s => decide (s.card_id ∈ idsWithLabel cards c)) = []
    · rw [show categoryLoop cards spents (c :: rest) added
          = categoryLoop cards spents rest added
        by simp [categoryLoop, hemp]]
      rw [ih added]
      apply congrArg
      apply List.map_congr_left
      intro s hs
      have hnc : s.card_id ∉ idsWithLabel cards c := by
        intro hmem
        have := List.filter_eq_nil_iff.mp hemp s hs
        simp [hmem] at this
      simp only [List.mem_cons, exists_eq_or_imp, hnc, false_or]
    · have hndS : ((spents.filter (fun s =>
          decide (s.card_id ∈ idsWithLabel cards c))).map
            (fun s => s.card_id)).Nodup :=
        ((List.filter_sublist spents).map (fun s => s.card_id)).nodup hnd
      rw [show (categoryLoop cards spents (c :: rest) added).1
          = { title := c.text,
              spent := (((addTasks cards (spents.filter
                (fun s => decide (s.card_id ∈ idsWithLabel cards c)))
                added).1).map (fun t => t.spent)).sum,
              tasks := (addTasks cards (spents.filter
                (fun s => decide (s.card_id ∈ idsWithLabel cards c)))
                added).1 }
            :: (categoryLoop cards spents rest
                (addTasks cards (spents.filter
                  (fun s => decide (s.card_id ∈ idsWithLabel cards c)))
                  added).2).1
        by simp [categoryLoop, hemp]]
      rw [List.map_cons, List.sum_cons]
      rw [ih ((addTasks cards (spents.filter
        (fun s => decide (s.card_id ∈ idsWithLabel cards c))) added).2)]
      rw [addTasks_tasks cards _ added hndS]
      rw [List.map_map]
      have htv : ((spents.filter (fun s =>
            decide (s.card_id ∈ idsWithLabel cards c))).filter
          (fun s => decide (s.card_id ∉ added))).map
            ((fun t => t.spent) ∘ (fun s => taskOf cards s))
          = ((spents.filter (fun s =>
              decide (s.card_id ∈ idsWithLabel cards c))).filter
            (fun s => decide (s.card_id ∉ added))).map (fun s => s.spent) :=
        List.map_congr_left (fun s _ => rfl)
      rw [htv, sum_filter_decide_ite, sum_filter_decide_ite]
      have hrest : ∀ s ∈ spents,
          (if s.card_id ∉ (addTasks cards (spents.filter (fun s =>
                decide (s.card_id ∈ idsWithLabel cards c))) added).2
              ∧ ∃ c' ∈ rest, s.card_id ∈ idsWithLabel cards c'
           then s.spent else 0)
          = (if s.card_id ∉ added ∧ s.card_id ∉ idsWithLabel cards c
              ∧ ∃ c' ∈ rest, s.card_id ∈ idsWithLabel cards c'
             then s.spent else 0) := by
        intro s hs
        have hiff : s.card_id ∈ (addTasks cards (spents.filter (fun s =>
              decide (s.card_id ∈ idsWithLabel cards c))) added).2 ↔
            s.card_id ∈ added ∨ s.card_id ∈ idsWithLabel cards c := by
          rw [addTasks_added_mem]
          constructor
          · rintro (h | ⟨b, hb, hbx⟩)
            · exact Or.inl h
            · obtain ⟨_, hbc⟩ := List.mem_filter.mp hb
              exact Or.inr (hbx ▸ (by simpa using hbc))
          · rintro (h | h)
            · exact Or.inl h
            · exact Or.inr ⟨s, List.mem_filter.mpr ⟨hs, by simpa using h⟩,
                rfl⟩
        have hnn : (s.card_id ∉ (addTasks cards (spents.filter (fun s =>
              decide (s.card_id ∈ idsWithLabel cards c))) added).2) ↔
            (s.card_id ∉ added ∧ s.card_id ∉ idsWithLabel cards c) := by
          rw [hiff]
          tauto
        simp only [hnn, and_assoc]
      rw [List.map_congr_left hrest]
      have hfst : ∀ s ∈ spents,
          (if s.card_id ∈ idsWithLabel cards c
              then (if s.card_id ∉ added then s.spent else 0) else 0)
          = (if s.card_id ∉ added ∧ s.card_id ∈ idsWithLabel cards c
             then s.spent else 0) := by
        intro s _
        by_cases h1 : s.card_id ∈ idsWithLabel cards c <;>
          by_cases h2 : s.card_id ∉ added <;> simp [h1, h2]
      rw [List.map_congr_left hfst]
      rw [← sum_map_add]
      apply congrArg
      apply List.map_congr_left
      intro s _
      have hsplit := ite_or_split (s.card_id ∉ added)
        (s.card_id ∈ idsWithLabel cards c)
        (∃ c' ∈ rest, s.card_id ∈ idsWithLabel cards c') s.spent
      simp only [List.mem_cons, exists_eq_or_imp]
      exact hsplit.symm

lemma gcr_tasks_sum (spents : List Spent) (cats : List Label)
    (cards : List Card)
    (hnd : (spents.map (fun s => s.card_id)).Nodup) :
    ((get_category_reports spents cats cards).map
        (fun cr => (cr.tasks.map (fun t => t.spent)).sum)).sum
      = (spents.map (fun s =>
          if (lookupCard cards s.card_id).isSome = true
          then s.spent else 0)).sum := by
  have hloop : (((categoryLoop cards spents cats []).1).map
      (fun cr => (cr.tasks.map (fun t => t.spent)).sum)).sum
      = (spents.map (fun s =>
          if ∃ c ∈ cats, s.card_id ∈ idsWithLabel cards c
          then s.spent else 0)).sum := by
    rw [categoryLoop_tasks_sum cards spents cats [] hnd]
    apply congrArg
    apply List.map_congr_left
    intro s _
    simp only [List.not_mem_nil, not_false_iff, true_and]
  have himp : ∀ s : Spent,
      (∃ c ∈ cats, s.card_id ∈ idsWithLabel cards c) →
        (lookupCard cards s.card_id).isSome = true := by
    rintro s ⟨c, _, hc⟩
    exact lookupCard_isSome_of_mem_ids cards s.card_id c hc
  simp only [get_category_reports]
  by_cases hunc : spents.filter (fun s => decide (s.card_id ∉
      (categoryLoop cards spents cats []).2)) = []
  · rw [if_pos hunc, hloop]
    apply congrArg
    apply List.map_congr_left
    intro s hs
    have hcl : s.card_id ∈ (categoryLoop cards spents cats []).2 := by
      by_contra hno
      have := List.filter_eq_nil_iff.mp hunc s hs
      simp [hno] at this
    have hex : ∃ c ∈ cats, s.card_id ∈ idsWithLabel cards c :=
      (categoryLoop_final_added_iff cards spents cats s hs).mp hcl
    rw [if_pos hex, if_pos (himp s hex)]
  · rw [if_neg hunc]
    rw [List.map_append, List.sum_append, hloop]
    simp only [List.map_cons, List.map_nil, List.sum_cons, List.sum_nil,
      add_zero, List.map_map]
    have htv : ((spents.filter (fun s => decide (s.card_id ∉
          (categoryLoop cards spents cats []).2))).filter
        (fun s => decide (s.card_id ∈ cardKeys cards))).map
          ((fun t => t.spent) ∘ (fun s => taskOf cards s))
        = ((spents.filter (fun s => decide (s.card_id ∉
            (categoryLoop cards spents cats []).2))).filter
          (fun s => decide (s.card_id ∈ cardKeys cards))).map
            (fun s => s.spent) :=
      List.map_congr_left (fun s _ => rfl)
    rw [htv, sum_filter_decide_ite, sum_filter_decide_ite, ← sum_map_add]
    apply congrArg
    apply List.map_congr_left
    intro s hs
    have hiff : s.card_id ∈ (categoryLoop cards spents cats []).2 ↔
        ∃ c ∈ cats, s.card_id ∈ idsWithLabel cards c :=
      categoryLoop_final_added_iff cards spents cats s hs
    by_cases hex : ∃ c ∈ cats, s.card_id ∈ idsWithLabel cards c
    · rw [if_pos hex, if_pos (himp s hex),
        if_neg (by rw [hiff]; simpa using hex)]
      ring
    · rw [if_neg hex, if_pos (by rw [hiff]; exact hex)]
      by_cases hsome : (lookupCard cards s.card_id).isSome = true
      · rw [if_pos ((mem_cardKeys_iff_isSome cards s.card_id).mpr hsome),
          if_pos hsome]
        ring
      · rw [if_neg (fun hmem =>
            hsome ((mem_cardKeys_iff_isSome cards s.card_id).mp hmem)),
          if_neg hsome]
        ring

lemma sum_sum_swap (tps : List Label) (spents : List Spent)
    (g : Label → Spent → ℚ) :
    (tps.map (fun p => (spents.map (fun s => g p s)).sum)).sum
      = (spents.map (fun s => (tps.map (fun p => g p s)).sum)).sum := by
  induction tps with
  | nil =>
    simp only [List.map_nil, List.sum_nil]
    exact (sum_map_zero spents).symm
  | cons p rest ih =>
    simp only [List.map_cons, List.sum_cons, ih]
    exact (sum_map_add _ _ _).symm

lemma sum_ite_count (tps : List Label) (pred : Label → Prop)
    [DecidablePred pred] (v : ℚ) :
    (tps.map (fun p => if pred p then v else 0)).sum
      = ((tps.filter (fun p => decide (pred p))).length : ℚ) * v := by
  induction tps with
  | nil => simp
  | cons p rest ih =>
    by_cases hp : pred p
    · rw [show (p :: rest).filter (fun p => decide (pred p))
          = p :: rest.filter (fun p => decide (pred p)) by
        rw [List.filter_cons]
        simp [hp]]
      simp only [List.map_cons, List.sum_cons, if_pos hp, ih,
        List.length_cons]
      push_cast
      ring
    · rw [show (p :: rest).filter (fun p => decide (pred p))
          = rest.filter (fun p => decide (pred p)) by
        rw [List.filter_cons]
        simp [hp]]
      simp only [List.map_cons, List.sum_cons, if_neg hp, ih]
      ring

/-- Claim C3 (amended): assuming the CardSpend list keeps its
one-per-card_id invariant, and provided no spending card carries more than
one target-project label, the sum of TaskReport.spent over the whole
DailyReport equals the sum of CardSpend.spent over the spends whose card
id is present in the card universe. -/
theorem c3_sum_conservation (date_str : String) (spents : List Spent)
    (cards : List Card) (projects categories : List String)
    (hnd : (spents.map (fun s => s.card_id)).Nodup)
    (hone : ∀ s ∈ spents,
      ((target_projects_of spents cards projects).filter
        (fun p => decide (s.card_id ∈ idsWithLabel cards p))).length ≤ 1) :
    dailyTasksSum (get_report date_str spents cards projects categories)
      = ((spents.filter (fun s =>
          decide ((lookupCard cards s.card_id).isSome = true))).map
        (fun s => s.spent)).sum := by
  have hndP : ∀ p : Label, ((spents.filter (fun s =>
      decide (s.card_id ∈ idsWithLabel cards p))).map
        (fun s => s.card_id)).Nodup :=
    fun p => ((List.filter_sublist spents).map (fun s => s.card_id)).nodup hnd
  have hndF : ((spents.filter (fun s => decide (s.card_id ∉
      claimedIds cards (target_projects_of spents cards projects)))).map
        (fun s => s.card_id)).Nodup :=
    ((List.filter_sublist spents).map (fun s => s.card_id)).nodup hnd
  have hproj : ∀ p : Label,
      (((get_category_reports (spents.filter (fun s =>
          decide (s.card_id ∈ idsWithLabel cards p)))
          (target_categories_of spents cards categories) cards)).map
        (fun cr => (cr.tasks.map (fun t => t.spent)).sum)).sum
      = (spents.map (fun s =>
          if s.card_id ∈ idsWithLabel cards p then s.spent else 0)).sum := by
    intro p
    rw [gcr_tasks_sum _ _ cards (hndP p), sum_filter_decide_ite]
    apply congrArg
    apply List.map_congr_left
    intro s _
    by_cases hin : s.card_id ∈ idsWithLabel cards p
    · rw [if_pos hin, if_pos hin,
        if_pos (lookupCard_isSome_of_mem_ids cards s.card_id p hin)]
    · rw [if_neg hin, if_neg hin]
  have hA : ((target_projects_of spents cards projects).map (fun p =>
      (((get_category_reports (spents.filter (fun s =>
          decide (s.card_id ∈ idsWithLabel cards p)))
          (target_categories_of spents cards categories) cards)).map
        (fun cr => (cr.tasks.map (fun t => t.spent)).sum)).sum)).sum
      = (spents.map (fun s =>
          ((((target_projects_of spents cards projects).filter
            (fun p => decide (s.card_id ∈ idsWithLabel cards p))).length : ℚ)
          * s.spent))).sum := by
    rw [List.map_congr_left (fun p _ => hproj p), sum_sum_swap]
    apply congrArg
    apply List.map_congr_left
    intro s _
    exact sum_ite_count _ _ _
  have hlen1 : ∀ s ∈ spents,
      s.card_id ∈ claimedIds cards (target_projects_of spents cards projects)
      → (((target_projects_of spents cards projects).filter
          (fun p => decide (s.card_id ∈ idsWithLabel cards p))).length) = 1 := by
    intro s hs hcl
    obtain ⟨p, hp, hpin⟩ := (claimedIds_mem cards _ _).mp hcl
    have hpos : 0 < ((target_projects_of spents cards projects).filter
        (fun p => decide (s.card_id ∈ idsWithLabel cards p))).length := by
      apply List.length_pos.mpr
      intro hni
      have := List.filter_eq_nil_iff.mp hni p hp
      simp [hpin] at this
    have hle := hone s hs
    omega
  have hlen0 : ∀ s : Spent,
      s.card_id ∉ claimedIds cards (target_projects_of spents cards projects)
      → (((target_projects_of spents cards projects).filter
          (fun p => decide (s.card_id ∈ idsWithLabel cards p))).length) = 0 := by
    intro s hcl
    rw [List.length_eq_zero]
    apply List.filter_eq_nil_iff.mpr
    intro p hp
    simp only [decide_eq_true_eq]
    intro hpin
    exact hcl ((claimedIds_mem cards _ _).mpr ⟨p, hp, hpin⟩)
  have hsome_of_cl : ∀ s : Spent,
      s.card_id ∈ claimedIds cards (target_projects_of spents cards projects)
      → (lookupCard cards s.card_id).isSome = true := by
    intro s hcl
    obtain ⟨p, _, hpin⟩ := (claimedIds_mem cards _ _).mp hcl
    exact lookupCard_isSome_of_mem_ids cards s.card_id p hpin
  rw [sum_filter_decide_ite]
  unfold dailyTasksSum
  simp only [get_report, projectLoop_added, List.nil_append,
    projectLoop_reports]
  by_cases hemp : spents.filter (fun s => decide (s.card_id ∉
      claimedIds cards (target_projects_of spents cards projects))) = []
  · rw [if_pos hemp, List.map_map]
    show ((target_projects_of spents cards projects).map (fun p =>
        (((get_category_reports (spents.filter (fun s =>
            decide (s.card_id ∈ idsWithLabel cards p)))
            (target_categories_of spents cards categories) cards)).map
          (fun cr => (cr.tasks.map (fun t => t.spent)).sum)).sum)).sum
      = (spents.map (fun s =>
          if (lookupCard cards s.card_id).isSome = true
          then s.spent else 0)).sum
    rw [hA]
    apply congrArg
    apply List.map_congr_left
    intro s hs
    have hcl : s.card_id ∈ claimedIds cards
        (target_projects_of spents cards projects) := by
      by_contra hno
      have := List.filter_eq_nil_iff.mp hemp s hs
      simp [hno] at this
    rw [hlen1 s hs hcl, if_pos (hsome_of_cl s hcl)]
    push_cast
    ring
  · rw [if_neg hemp, List.map_append, List.sum_append, List.map_map]
    show ((target_projects_of spents cards projects).map (fun p =>
        (((get_category_reports (spents.filter (fun s =>
            decide (s.card_id ∈ idsWithLabel cards p)))
            (target_categories_of spents cards categories) cards)).map
          (fun cr => (cr.tasks.map (fun t => t.spent)).sum)).sum)).sum
      + ((((get_category_reports (spents.filter (fun s =>
            decide (s.card_id ∉ claimedIds cards
              (target_projects_of spents cards projects))))
            (target_categories_of spents cards categories) cards)).map
          (fun cr => (cr.tasks.map (fun t => t.spent)).sum)).sum + 0)
      = (spents.map (fun s =>
          if (lookupCard cards s.card_id).isSome = true
          then s.spent else 0)).sum
    rw [add_zero, hA, gcr_tasks_sum _ _ cards hndF, sum_filter_decide_ite,
      ← sum_map_add]
    apply congrArg
    apply List.map_congr_left
    intro s hs
    by_cases hcl : s.card_id ∈ claimedIds cards
        (target_projects_of spents cards projects)
    · rw [hlen1 s hs hcl, if_neg (not_not_intro hcl),
        if_pos (hsome_of_cl s hcl)]
      push_cast
      ring
    · rw [hlen0 s hcl, if_pos hcl]
      push_cast
      ring

/-- Closed instance of `c3_sum_conservation` on the end-to-end fixture:
its spends have distinct card ids and no card carries two target-project
labels, and the tree total 4.25 equals the in-universe spend total. -/
theorem c3_sum_conservation_witness :
    dailyTasksSum (get_report "2021/05/01" spentsABC univABC
        ["ProjectX"] ["CategoryY"])
      = ((spentsABC.filter (fun s =>
          decide ((lookupCard univABC s.card_id).isSome = true))).map
        (fun s => s.spent)).sum := by
  exact c3_sum_conservation "2021/05/01" spentsABC univABC
    ["ProjectX"] ["CategoryY"] (by decide) (by decide)

/-- Claim C2 (amended): the ProjectReport sequence follows the iteration
order of the target-project labels (set of labels on spending cards,
filtered by configured membership; modelled in first-encounter order) with
the synthetic fallback project last; and within every category split the
CategoryReports follow the target-category label order with the synthetic
uncategorized bucket last. -/
theorem c2_amended_ordering (date_str : String) (spents : List Spent)
    (cards : List Card) (projects categories : List String) :
    ((get_report date_str spents cards projects categories).projects).map
        (fun pr => pr.title)
      = (target_projects_of spents cards projects).map (fun p => p.text)
        ++ (if spents.filter (fun s => decide (s.card_id ∉
              claimedIds cards (target_projects_of spents cards projects)))
              = []
            then [] else [fallbackTitle])
    ∧ ∀ (spents2 : List Spent) (cats : List Label),
        (get_category_reports spents2 cats cards).map (fun cr => cr.title)
          = (cats.filter (fun c => decide (spents2.filter
                (fun s => decide (s.card_id ∈ idsWithLabel cards c)) ≠ []))).map
              (fun c => c.text)
            ++ (if spents2.filter (fun s => decide
                  (¬ ∃ c ∈ cats, s.card_id ∈ idsWithLabel cards c)) = []
                then [] else [fallbackTitle]) := by
  constructor
  · unfold get_report
    simp only [projectLoop_added, List.nil_append]
    by_cases hemp : spents.filter (fun s => decide (s.card_id ∉
        claimedIds cards (target_projects_of spents cards projects))) = []
    · rw [if_pos hemp, if_pos hemp, List.append_nil]
      simp only [projectLoop_reports, List.map_map]
      rfl
    · rw [if_neg hemp, if_neg hemp, List.map_append]
      simp only [projectLoop_reports, List.map_map]
      rfl
  · intro spents2 cats
    exact gcr_titles spents2 cats cards

lemma categoryLoop_append (cards : List Card) (spents : List Spent)
    (cs1 cs2 : List Label) (added : List String) :
    categoryLoop cards spents (cs1 ++ cs2) added
      = ((categoryLoop cards spents cs1 added).1
          ++ (categoryLoop cards spents cs2
              (categoryLoop cards spents cs1 added).2).1,
         (categoryLoop cards spents cs2
            (categoryLoop cards spents cs1 added).2).2) := by
  induction cs1 generalizing added with
  | nil => simp [categoryLoop]
  | cons c rest ih =>
    by_cases hemp : spents.filter
        (fun s => decide (s.card_id ∈ idsWithLabel cards c)) = [] <;>
      simp [categoryLoop, hemp, ih]

/-- Claim C7 (amended): a CategoryReport for a configured category label is
omitted exactly when no spend of the given subset falls into that
category's card-id set; when spends do fall into the set but every one of
them was already claimed by an earlier category pass, a CategoryReport
with zero tasks and spent 0 is still emitted. -/
theorem c7_amended_emission (spents : List Spent) (cards : List Card)
    (cs1 cs2 : List Label) (c : Label)
    (hne : spents.filter
      (fun s => decide (s.card_id ∈ idsWithLabel cards c)) ≠ [])
    (hcl : ∀ s ∈ spents, s.card_id ∈ idsWithLabel cards c →
      ∃ c' ∈ cs1, s.card_id ∈ idsWithLabel cards c') :
    (∀ (spents2 : List Spent) (cats : List Label),
        (get_category_reports spents2 cats cards).map (fun cr => cr.title)
          = (cats.filter (fun c' => decide (spents2.filter
                (fun s => decide (s.card_id ∈ idsWithLabel cards c')) ≠ []))).map
              (fun c' => c'.text)
            ++ (if spents2.filter (fun s => decide
                  (¬ ∃ c' ∈ cats, s.card_id ∈ idsWithLabel cards c')) = []
                then [] else [fallbackTitle]))
    ∧ (⟨c.text, 0, []⟩ : CategoryReport)
        ∈ get_category_reports spents (cs1 ++ c :: cs2) cards := by
  constructor
  · intro spents2 cats
    exact gcr_titles spents2 cats cards
  · have hadd : addTasks cards (spents.filter
        (fun s => decide (s.card_id ∈ idsWithLabel cards c)))
        (categoryLoop cards spents cs1 []).2
        = ([], (categoryLoop cards spents cs1 []).2) := by
      apply addTasks_all_claimed
      intro s hs
      obtain ⟨hs1, hs2⟩ := List.mem_filter.mp hs
      obtain ⟨c', hc', hcs⟩ := hcl s hs1 (by simpa using hs2)
      rw [categoryLoop_added_mem]
      exact Or.inr ⟨s, hs1, rfl, c', hc', hcs⟩
    have hstep : (categoryLoop cards spents (c :: cs2)
          (categoryLoop cards spents cs1 []).2).1
        = (⟨c.text, 0, []⟩ : CategoryReport)
          :: (categoryLoop cards spents cs2
              (categoryLoop cards spents cs1 []).2).1 := by
      simp [categoryLoop, hne, hadd]
    have hmem : (⟨c.text, 0, []⟩ : CategoryReport)
        ∈ (categoryLoop cards spents (cs1 ++ c :: cs2) []).1 := by
      rw [categoryLoop_append]
      show _ ∈ (categoryLoop cards spents cs1 []).1
        ++ (categoryLoop cards spents (c :: cs2)
            (categoryLoop cards spents cs1 []).2).1
      apply List.mem_append_right
      rw [hstep]
      exact List.mem_cons_self _ _
    simp only [get_category_reports]
    by_cases hunc : spents.filter (fun s => decide (s.card_id ∉
        (categoryLoop cards spents (cs1 ++ c :: cs2) []).2)) = []
    · rw [if_pos hunc]
      exact hmem
    · rw [if_neg hunc]
      exact List.mem_append_left _ hmem

/-- Closed instance of `c7_amended_emission`: the all-claimed category C2
still yields an empty CategoryReport. -/
theorem c7_amended_emission_witness :
    (⟨"C2", 0, []⟩ : CategoryReport)
      ∈ get_category_reports [⟨"w", [], 1⟩] [labelC1, labelC2] [cardW] := by
  exact (c7_amended_emission [⟨"w", [], 1⟩] [cardW] [labelC1] [] labelC2
    (by decide) (by decide)).2

/-- Claim C9: a CardSpend whose card id is absent from the card universe
never appears as a TaskReport inside the synthetic unassigned
ProjectReport, yet whenever at least one unclaimed spend exists the bucket
is created (as the last project): every task in it comes from an
unclaimed spend whose card id IS in the universe. -/
theorem c9_unassigned_bucket (date_str : String) (spents : List Spent)
    (cards : List Card) (projects categories : List String)
    (hne : spents.filter (fun s => decide (s.card_id ∉
        claimedIds cards (target_projects_of spents cards projects))) ≠ []) :
    ∃ pr, ((get_report date_str spents cards projects
          categories).projects).getLast? = some pr
      ∧ pr.title = fallbackTitle
      ∧ ∀ cr ∈ pr.categories, ∀ t ∈ cr.tasks, ∃ s ∈ spents,
          s.card_id ∉ claimedIds cards
            (target_projects_of spents cards projects)
          ∧ (lookupCard cards s.card_id).isSome ∧ t = taskOf cards s := by
  simp only [get_report, projectLoop_added, List.nil_append]
  rw [if_neg hne]
  refine ⟨get_project_report fallbackTitle
    (spents.filter (fun s => decide (s.card_id ∉
      claimedIds cards (target_projects_of spents cards projects))))
    (target_categories_of spents cards categories) cards, ?_, rfl, ?_⟩
  · show ((projectLoop cards spents
        (target_categories_of spents cards categories)
        (target_projects_of spents cards projects) []).1
      ++ [get_project_report fallbackTitle _ _ cards]).getLast? = _
    rw [List.getLast?_concat]
  · intro cr hcr t ht
    have hsrc := gcr_tasks_sources
      (spents.filter (fun s => decide (s.card_id ∉
        claimedIds cards (target_projects_of spents cards projects))))
      (target_categories_of spents cards categories) cards cr hcr t ht
    obtain ⟨s, hs, hsome, hst⟩ := hsrc
    obtain ⟨hs1, hs2⟩ := List.mem_filter.mp hs
    exact ⟨s, hs1, by simpa using hs2, hsome, hst⟩

/-- Closed instance of `c9_unassigned_bucket`: one stale spend (card id
absent from the universe) plus one unclaimed in-universe spend — the
bucket exists, is last, and its tasks all come from in-universe spends. -/
theorem c9_unassigned_bucket_witness :
    ∃ pr, ((get_report "d" [⟨"ghost", [], 1⟩, ⟨"c", [], 2⟩] [cardC] [] []
        ).projects).getLast? = some pr
      ∧ pr.title = fallbackTitle
      ∧ ∀ cr ∈ pr.categories, ∀ t ∈ cr.tasks,
          ∃ s ∈ ([⟨"ghost", [], 1⟩, ⟨"c", [], 2⟩] : List Spent),
            s.card_id ∉ claimedIds [cardC]
              (target_projects_of [⟨"ghost", [], 1⟩, ⟨"c", [], 2⟩] [cardC] [])
            ∧ (lookupCard [cardC] s.card_id).isSome
            ∧ t = taskOf [cardC] s := by
  exact c9_unassigned_bucket "d" [⟨"ghost", [], 1⟩, ⟨"c", [], 2⟩] [cardC]
    [] [] (by decide)

/-- Claim C7, counterexample: a single spend on a card carrying both
configured category labels C1 and C2.  The C1 pass claims the card; the C2
pass still finds a non-empty `category_spents` (the emptiness test runs
before the claimed-filter), so a CategoryReport for C2 IS emitted with
zero tasks and spent 0, contradicting the claim. -/
theorem c7_counterexample :
    get_category_reports [⟨"w", [], 1⟩] [labelC1, labelC2] [cardW]
      = [{ title := "C1", spent := 1,
           tasks := [{ title := "Task W", spent := 1, sub_tasks := [] }] },
         { title := "C2", spent := 0, tasks := [] }]
    ∧ ((get_category_reports [⟨"w", [], 1⟩] [labelC1, labelC2]
          [cardW]).map (fun cr => cr.tasks.length)) = [1, 0] := by
  refine ⟨by with_unfolding_all rfl, by with_unfolding_all rfl⟩

/-!
### Error behaviour of the aggregator (claim C10)
-/

lemma exceptMap_error_iff {α β γ : Type} (f : α → β) (x : Except γ α)
    (e : γ) : x.map f = .error e ↔ x = .error e := by
  cases x <;> simp [Except.map]

lemma parse_actions_error_iff (acts : List RawAction) (s : ℤ)
    (e : AggError) :
    parse_actions acts s = .error e ↔ in_period_actions s acts = .error e := by
  unfold parse_actions
  exact exceptMap_error_iff _ _ _

lemma in_period_error_iff (s : ℤ) (acts : List RawAction) :
    (∃ e, in_period_actions s acts = .error e) ↔
      ((∃ a ∈ acts, a.date = none) ∨ ∃ a ∈ acts, cardFieldFails s a) := by
  induction acts with
  | nil => simp [in_period_actions]
  | cons a rest ih =>
    cases hd : a.date with
    | none =>
      constructor
      · intro _
        exact Or.inl ⟨a, List.mem_cons_self a rest, hd⟩
      · intro _
        exact ⟨.inputFormatError, by simp [in_period_actions, hd]⟩
    | some t =>
      by_cases hlt : t < s
      · rw [show in_period_actions s (a :: rest) = in_period_actions s rest by
          simp [in_period_actions, hd, hlt]]
        rw [ih]
        constructor
        · rintro (⟨b, hb, h⟩ | ⟨b, hb, h⟩)
          · exact Or.inl ⟨b, List.mem_cons_of_mem a hb, h⟩
          · exact Or.inr ⟨b, List.mem_cons_of_mem a hb, h⟩
        · rintro (⟨b, hb, h⟩ | ⟨b, hb, h⟩) <;>
            rcases List.mem_cons.mp hb with rfl | hb'
          · exact absurd h (by simp [hd])
          · exact Or.inl ⟨b, hb', h⟩
          · obtain ⟨t', ht', hlt', _⟩ := h
            rw [hd] at ht'
            cases ht'
            exact absurd hlt hlt'
          · exact Or.inr ⟨b, hb', h⟩
      · cases hm : matchPlus a.text with
        | none =>
          rw [show in_period_actions s (a :: rest) = in_period_actions s rest
            by simp [in_period_actions, hd, hlt, hm]]
          rw [ih]
          constructor
          · rintro (⟨b, hb, h⟩ | ⟨b, hb, h⟩)
            · exact Or.inl ⟨b, List.mem_cons_of_mem a hb, h⟩
            · exact Or.inr ⟨b, List.mem_cons_of_mem a hb, h⟩
          · rintro (⟨b, hb, h⟩ | ⟨b, hb, h⟩) <;>
              rcases List.mem_cons.mp hb with rfl | hb'
            · exact absurd h (by simp [hd])
            · exact Or.inl ⟨b, hb', h⟩
            · obtain ⟨t', ht', _, hm', _⟩ := h
              rw [hd] at ht'
              cases ht'
              exact absurd hm hm'
            · exact Or.inr ⟨b, hb', h⟩
        | some p =>
          obtain ⟨v, comment⟩ := p
          cases hc : a.card with
          | none =>
            constructor
            · intro _
              exact Or.inr ⟨a, List.mem_cons_self a rest,
                t, hd, hlt, by simp [hm], hc⟩
            · intro _
              exact ⟨.missingFieldError,
                by simp [in_period_actions, hd, hlt, hm, hc]⟩
          | some cid =>
            have hstep : ∀ e, (in_period_actions s (a :: rest) = .error e ↔
                in_period_actions s rest = .error e) := by
              intro e
              simp only [in_period_actions, hd, hlt, hm, hc, if_neg hlt]
              exact exceptMap_error_iff _ _ _
            constructor
            · rintro ⟨e, he⟩
              rcases ih.mp ⟨e, (hstep e).mp he⟩ with ⟨b, hb, h⟩ | ⟨b, hb, h⟩
              · exact Or.inl ⟨b, List.mem_cons_of_mem a hb, h⟩
              · exact Or.inr ⟨b, List.mem_cons_of_mem a hb, h⟩
            · intro h
              have : (∃ b ∈ rest, b.date = none) ∨
                  ∃ b ∈ rest, cardFieldFails s b := by
                rcases h with ⟨b, hb, hbd⟩ | ⟨b, hb, hbd⟩ <;>
                  rcases List.mem_cons.mp hb with rfl | hb'
                · exact absurd hbd (by simp [hd])
                · exact Or.inl ⟨b, hb', hbd⟩
                · obtain ⟨t', ht', _, _, hc'⟩ := hbd
                  rw [hc] at hc'
                  cases hc'
                · exact Or.inr ⟨b, hb', hbd⟩
              obtain ⟨e, he⟩ := ih.mpr this
              exact ⟨e, (hstep e).mpr he⟩

lemma in_period_inputFormat (s : ℤ) (acts : List RawAction) :
    in_period_actions s acts = .error .inputFormatError →
      ∃ a ∈ acts, a.date = none := by
  induction acts with
  | nil => simp [in_period_actions]
  | cons a rest ih =>
    intro h
    cases hd : a.date with
    | none => exact ⟨a, List.mem_cons_self a rest, hd⟩
    | some t =>
      by_cases hlt : t < s
      · rw [show in_period_actions s (a :: rest) = in_period_actions s rest by
          simp [in_period_actions, hd, hlt]] at h
        obtain ⟨b, hb, hbd⟩ := ih h
        exact ⟨b, List.mem_cons_of_mem a hb, hbd⟩
      · cases hm : matchPlus a.text with
        | none =>
          rw [show in_period_actions s (a :: rest) = in_period_actions s rest
            by simp [in_period_actions, hd, hlt, hm]] at h
          obtain ⟨b, hb, hbd⟩ := ih h
          exact ⟨b, List.mem_cons_of_mem a hb, hbd⟩
        | some p =>
          obtain ⟨v, comment⟩ := p
          cases hc : a.card with
          | none =>
            rw [show in_period_actions s (a :: rest)
                = .error .missingFieldError by
              simp [in_period_actions, hd, hlt, hm, hc]] at h
            cases h
          | some cid =>
            have := (by
              simp only [in_period_actions, hd, hlt, hm, hc, if_neg hlt] at h
              exact (exceptMap_error_iff _ _ _).mp h :
                in_period_actions s rest = .error .inputFormatError)
            obtain ⟨b, hb, hbd⟩ := ih this
            exact ⟨b, List.mem_cons_of_mem a hb, hbd⟩

lemma in_period_missingField (s : ℤ) (acts : List RawAction) :
    in_period_actions s acts = .error .missingFieldError →
      ∃ a ∈ acts, cardFieldFails s a := by
  induction acts with
  | nil => simp [in_period_actions]
  | cons a rest ih =>
    intro h
    cases hd : a.date with
    | none =>
      rw [show in_period_actions s (a :: rest) = .error .inputFormatError by
        simp [in_period_actions, hd]] at h
      cases h
    | some t =>
      by_cases hlt : t < s
      · rw [show in_period_actions s (a :: rest) = in_period_actions s rest by
          simp [in_period_actions, hd, hlt]] at h
        obtain ⟨b, hb, hbd⟩ := ih h
        exact ⟨b, List.mem_cons_of_mem a hb, hbd⟩
      · cases hm : matchPlus a.text with
        | none =>
          rw [show in_period_actions s (a :: rest) = in_period_actions s rest
            by simp [in_period_actions, hd, hlt, hm]] at h
          obtain ⟨b, hb, hbd⟩ := ih h
          exact ⟨b, List.mem_cons_of_mem a hb, hbd⟩
        | some p =>
          obtain ⟨v, comment⟩ := p
          cases hc : a.card with
          | none =>
            exact ⟨a, List.mem_cons_self a rest, t, hd, hlt, by simp [hm], hc⟩
          | some cid =>
            have := (by
              simp only [in_period_actions, hd, hlt, hm, hc, if_neg hlt] at h
              exact (exceptMap_error_iff _ _ _).mp h :
                in_period_actions s rest = .error .missingFieldError)
            obtain ⟨b, hb, hbd⟩ := ih this
            exact ⟨b, List.mem_cons_of_mem a hb, hbd⟩

/-- Claim C10: the aggregator fails iff some record's timestamp fails to
parse (InputFormatError) or some in-window, pattern-matching record lacks
the nested card-identifier field (MissingFieldError); a non-matching
comment body alone is never an error.  The two directional conjuncts tie
each error kind to its cause. -/
theorem c10_error_characterisation (acts : List RawAction)
    (start_datetime : ℤ) :
    ((∃ e, parse_actions acts start_datetime = .error e) ↔
      ((∃ a ∈ acts, a.date = none) ∨
        ∃ a ∈ acts, cardFieldFails start_datetime a))
    ∧ (parse_actions acts start_datetime = .error .inputFormatError →
        ∃ a ∈ acts, a.date = none)
    ∧ (parse_actions acts start_datetime = .error .missingFieldError →
        ∃ a ∈ acts, cardFieldFails start_datetime a) := by
  refine ⟨?_, ?_, ?_⟩
  · rw [show (∃ e, parse_actions acts start_datetime = .error e) ↔
        ∃ e, in_period_actions start_datetime acts = .error e by
      exact exists_congr (fun e => parse_actions_error_iff acts start_datetime e)]
    exact in_period_error_iff start_datetime acts
  · intro h
    exact in_period_inputFormat start_datetime acts
      ((parse_actions_error_iff _ _ _).mp h)
  · intro h
    exact in_period_missingField start_datetime acts
      ((parse_actions_error_iff _ _ _).mp h)

/-- Closed instance of `c10_error_characterisation`: a record with an
unparseable date makes the aggregator fail, and a list whose only record
has a non-matching comment does not fail. -/
theorem c10_error_characterisation_witness :
    (∃ e, parse_actions [⟨none, "x", none⟩] 0 = .error e)
    ∧ ∃ a ∈ ([⟨none, "x", none⟩] : List RawAction), a.date = none := by
  refine ⟨(c10_error_characterisation [⟨none, "x", none⟩] 0).1.mpr
    (Or.inl ⟨⟨none, "x", none⟩, List.mem_cons_self _ _, rfl⟩),
    ⟨none, "x", none⟩, List.mem_cons_self _ _, rfl⟩

/-!
### Window filtering (claim C5)
-/

lemma in_period_drop_early (s t : ℤ) (a : RawAction) (hd : a.date = some t)
    (hlt : t < s) (pre post : List RawAction) :
    in_period_actions s (pre ++ a :: post)
      = in_period_actions s (pre ++ post) := by
  induction pre with
  | nil => simp [in_period_actions, hd, hlt]
  | cons b pre ih =>
    simp only [List.cons_append, in_period_actions, List.append_eq, ih]

lemma in_period_mem_boundary (s : ℤ) (a : RawAction) (v : ℚ) (c cid : String)
    (hd : a.date = some s) (hm : matchPlus a.text = some (v, c))
    (hc : a.card = some cid) (pre post : List RawAction) :
    ∀ l, in_period_actions s (pre ++ a :: post) = .ok l →
      (⟨cid, c, v⟩ : Action) ∈ l := by
  induction pre with
  | nil =>
    intro l h
    simp only [List.nil_append, in_period_actions, hd, hm, hc,
      lt_irrefl, if_false] at h
    cases hrec : in_period_actions s post with
    | error e => rw [hrec] at h; cases h
    | ok l' =>
      rw [hrec] at h
      simp only [Except.map] at h
      cases h
      exact List.mem_cons_self _ _
  | cons b pre ih =>
    intro l h
    cases hbd : b.date with
    | none => simp [in_period_actions, hbd] at h
    | some tb =>
      by_cases hblt : tb < s
      · rw [show in_period_actions s (b :: pre ++ a :: post)
            = in_period_actions s (pre ++ a :: post) by
          simp [in_period_actions, hbd, hblt]] at h
        exact ih l h
      · cases hbm : matchPlus b.text with
        | none =>
          rw [show in_period_actions s (b :: pre ++ a :: post)
              = in_period_actions s (pre ++ a :: post) by
            simp [in_period_actions, hbd, hblt, hbm]] at h
          exact ih l h
        | some p =>
          obtain ⟨bv, bc⟩ := p
          cases hbc : b.card with
          | none => simp [in_period_actions, hbd, hblt, hbm, hbc] at h
          | some bcid =>
            simp only [List.cons_append, in_period_actions, hbd, hbm, hbc,
              if_neg hblt, List.append_eq] at h
            cases hrec : in_period_actions s (pre ++ a :: post) with
            | error e => rw [hrec] at h; cases h
            | ok l' =>
              rw [hrec] at h
              simp only [Except.map] at h
              cases h
              exact List.mem_cons_of_mem _ (ih l' hrec)

/-- Claim C5: an activity record whose (parseable) timestamp is strictly
earlier than `start_datetime` contributes to no CardSpend — removing it
does not change the aggregator's output at all — while a record whose
timestamp equals `start_datetime` exactly is included in aggregation
(its entry appears among the surviving in-period actions). -/
theorem c5_window_boundary (pre post : List RawAction) (a : RawAction)
    (start_datetime t : ℤ) (hd : a.date = some t) :
    (t < start_datetime →
      parse_actions (pre ++ a :: post) start_datetime
        = parse_actions (pre ++ post) start_datetime)
    ∧ (t = start_datetime → ∀ v c cid l,
        matchPlus a.text = some (v, c) → a.card = some cid →
        in_period_actions start_datetime (pre ++ a :: post) = .ok l →
        (⟨cid, c, v⟩ : Action) ∈ l) := by
  constructor
  · intro hlt
    unfold parse_actions
    rw [in_period_drop_early start_datetime t a hd hlt pre post]
  · rintro rfl v c cid l hm hc h
    exact in_period_mem_boundary t a v c cid hd hm hc pre post l h

/-- Closed instance of `c5_window_boundary`: a record dated before the
cutoff changes nothing, and one dated exactly at the cutoff appears in the
surviving entries. -/
theorem c5_window_boundary_witness :
    (parse_actions ([] ++ ⟨some 0, "plus! 2/8 fix", some "k"⟩ :: []) 5
      = parse_actions ([] ++ []) 5)
    ∧ (⟨"k", "fix", 2⟩ : Action) ∈ ([⟨"k", "fix", 2⟩] : List Action) := by
  constructor
  · exact (c5_window_boundary [] [] ⟨some 0, "plus! 2/8 fix", some "k"⟩
      5 0 rfl).1 (by norm_num)
  · exact (c5_window_boundary [] [] ⟨some 5, "plus! 2/8 fix", some "k"⟩
      5 5 rfl).2 rfl 2 "fix" "k" [⟨"k", "fix", 2⟩] (by decide) rfl
      (by with_unfolding_all rfl)

/-!
### Aggregation invariants (claim C6)
-/

lemma group_spents_card_ids (acts : List Action) (cid : String) :
    ((group_spents acts).filter
        (fun sp => decide (sp.card_id = cid))).length
      = if cid ∈ acts.map (fun a => a.card_id) then 1 else 0 := by
  unfold group_spents
  rw [List.filter_map]
  rw [List.length_map]
  have hichar : ∀ l : List String, l.Nodup →
      (l.filter (fun x => decide (x = cid))).length
        = if cid ∈ l then 1 else 0 := by
    intro l hl
    induction l with
    | nil => simp
    | cons x xs ih =>
      rcases List.nodup_cons.mp hl with ⟨hx, hxs⟩
      by_cases hxc : x = cid
      · subst hxc
        simp [List.filter_cons, hx, ih hxs]
      · simp [List.filter_cons, hxc, ih hxs, Ne.symm hxc]
  have hmain := hichar ((acts.map (fun a => a.card_id)).dedup)
    (List.nodup_dedup _)
  simp only [List.mem_dedup] at hmain
  show (((acts.map (fun a => a.card_id)).dedup).filter
      (fun x => decide (x = cid))).length
    = if cid ∈ acts.map (fun a => a.card_id) then 1 else 0
  exact hmain

/-- Claim C6: for every successful aggregator run there is exactly one
CardSpend per distinct card id among the surviving entries; each
CardSpend's spent is the full-precision sum of that card's entries rounded
to 2 decimals; and its comments are exactly the non-empty comments of that
card's entries in per-card filter order. -/
theorem c6_aggregate_invariants (acts : List RawAction) (start_datetime : ℤ)
    (acts' : List Action)
    (h : in_period_actions start_datetime acts = .ok acts') :
    parse_actions acts start_datetime = .ok (group_spents acts')
    ∧ (∀ cid, ((group_spents acts').filter
        (fun sp => decide (sp.card_id = cid))).length
          = if cid ∈ acts'.map (fun a => a.card_id) then 1 else 0)
    ∧ ∀ sp ∈ group_spents acts',
        sp.spent = round2 (((acts'.filter
            (fun a => decide (a.card_id = sp.card_id))).map
          (fun a => a.spent)).sum)
        ∧ sp.comments = ((acts'.filter
            (fun a => decide (a.card_id = sp.card_id))).map
          (fun a => a.comment)).filter (fun c => decide (c ≠ "")) := by
  refine ⟨by unfold parse_actions; rw [h]; rfl,
    fun cid => group_spents_card_ids acts' cid, ?_⟩
  intro sp hsp
  unfold group_spents at hsp
  obtain ⟨cid, _, rfl⟩ := List.mem_map.mp hsp
  exact ⟨rfl, rfl⟩

/-- Closed instance of `c6_aggregate_invariants` on a two-record run for
the same card: one CardSpend, summed and rounded spend, ordered non-empty
comments. -/
theorem c6_aggregate_invariants_witness :
    parse_actions [⟨some 0, "plus! 1.5/4 first", some "k"⟩,
        ⟨some 1, "plus! 2/8", some "k"⟩] 0
      = .ok (group_spents
          [⟨"k", "first", 3/2⟩, ⟨"k", "", 2⟩]) := by
  exact (c6_aggregate_invariants
    [⟨some 0, "plus! 1.5/4 first", some "k"⟩, ⟨some 1, "plus! 2/8", some "k"⟩]
    0 [⟨"k", "first", 3/2⟩, ⟨"k", "", 2⟩] (by with_unfolding_all rfl)).1

/-- Claim C1 (code bug witness): evaluating `get_dict` on a one-task
report shows the task-level `spent` entry is the literal string
`task.spent` (the source writes `f'task.spent'` without interpolation
braces), which is not a numeric value. -/
theorem c1_task_spent_literal_string :
    get_dict ⟨"t", 1, [⟨"p", 1, [⟨"c", 1, [⟨"Task A", 1, ["note"]⟩]⟩]⟩]⟩
      = .obj [("title", .str "t"), ("spent", .num 1),
          ("projects", .arr [.obj [("title", .str "p"), ("spent", .num 1),
            ("categories", .arr [.obj [("title", .str "c"),
              ("spent", .num 1),
              ("tasks", .arr [.obj [("title", .str "Task A"),
                ("spent", .str "task.spent"),
                ("sub_tasks", .arr [.str "note"])]])]])]])]
    ∧ isNumJ (.str "task.spent") = false := by
  exact ⟨rfl, rfl⟩

end Trello
